import Mathlib

/-!
Verification of the resumable migration state machine of the
`github-export` repository (state manager, work selector, error
classifier, two-phase repo migrator, state merger, discovery).

The TypeScript source is shallowly embedded:
* `MigrationState.repos` (a string-keyed JS object, insertion-ordered)
  becomes an insertion-ordered association list `List (String × RepoState)`;
  assigning to an existing key keeps its position, a new key is appended.
* ISO-8601 timestamp strings are abstracted as integers (`Int`): `Date`
  parsing of a valid ISO string is strictly monotone, so comparisons of
  parsed dates become integer comparisons, and `Date.now()` becomes an
  explicit `now : Int` parameter.  Absent optional timestamps are `none`.
* JS object spread `{ ...existing, ...patch }` is modelled by `RepoPatch`
  (`none` = key absent in the patch, `some none` = key present holding
  `undefined`, which clears an optional field).
* `async` file persistence (`save`) is the identity on the modelled state:
  the in-memory snapshot is the persisted snapshot.
* The migrator's remote collaborators (Codeberg client, branch syncer) are
  oracles (`MigrationEnv`) recording success or a thrown error message, and
  every collaborator invocation is logged in a call trace.
-/

/-- Repo lifecycle status (`RepoStatusSchema` in `state-manager.ts`). -/
inductive RepoStatus
  | pending
  | in_progress
  | completed
  | failed
  | skipped
deriving DecidableEq, Repr

/-- Failure classification (`ErrorTypeSchema` in `state-manager.ts`). -/
inductive ErrorType
  | transient
  | recoverable
  | permanent
deriving DecidableEq, Repr

/-- The two per-repo migration phase flags (`RepoStateSchema.phases`). -/
structure PhaseFlags where
  apiMigration : Bool
  branchSync : Bool
deriving DecidableEq, Repr

/-- Per-repo migration record (`RepoStateSchema` in `state-manager.ts`).
Timestamps are abstracted integers; absent optional JSON keys are `none`. -/
structure RepoState where
  name : String
  status : RepoStatus
  lastAttempt : Option Int := none
  completedAt : Option Int := none
  lastSyncedAt : Option Int := none
  githubPushedAt : Option Int := none
  error : Option String := none
  errorType : Option ErrorType := none
  attemptCount : Nat := 0
  phases : PhaseFlags := ⟨false, false⟩
deriving DecidableEq, Repr

/-- Whole snapshot (`MigrationStateSchema`); `repos` is insertion-ordered. -/
structure MigrationState where
  version : Nat := 1
  sourceOrg : String
  targetOrg : String
  lastDiscovery : Option Int := none
  totalRepos : Nat := 0
  repos : List (String × RepoState) := []
deriving DecidableEq, Repr

/-- A `Partial<RepoState>` patch as spread over an existing record:
`none` means the key is absent from the patch, `some v` means the key is
present with value `v` (for optional fields `some none` is a key present
holding `undefined`, which clears the field on spread). -/
structure RepoPatch where
  name : Option String := none
  status : Option RepoStatus := none
  lastAttempt : Option (Option Int) := none
  completedAt : Option (Option Int) := none
  lastSyncedAt : Option (Option Int) := none
  githubPushedAt : Option (Option Int) := none
  error : Option (Option String) := none
  errorType : Option (Option ErrorType) := none
  attemptCount : Option Nat := none
  phases : Option PhaseFlags := none
deriving DecidableEq, Repr

/-- JS spread `{ ...r, ...p }`. -/
def applyPatch (r : RepoState) (p : RepoPatch) : RepoState :=
  { name := p.name.getD r.name
    status := p.status.getD r.status
    lastAttempt := p.lastAttempt.getD r.lastAttempt
    completedAt := p.completedAt.getD r.completedAt
    lastSyncedAt := p.lastSyncedAt.getD r.lastSyncedAt
    githubPushedAt := p.githubPushedAt.getD r.githubPushedAt
    error := p.error.getD r.error
    errorType := p.errorType.getD r.errorType
    attemptCount := p.attemptCount.getD r.attemptCount
    phases := p.phases.getD r.phases }

/-- `this.state.repos[name]` read. -/
def lookupRepo (l : List (String × RepoState)) (n : String) : Option RepoState :=
  (l.find? (fun q => q.1 == n)).map (fun q => q.2)

/-- `this.state.repos[name] = r` write: updating an existing key keeps its
position in the insertion order, a fresh key is appended at the end. -/
def updateRepos (l : List (String × RepoState)) (n : String) (r : RepoState) :
    List (String × RepoState) :=
  if l.any (fun q => q.1 == n) then
    l.map (fun q => if q.1 == n then (n, r) else q)
  else l ++ [(n, r)]

/-- The default record `setRepoState` creates when the repo is absent. -/
def defaultRepoState (n : String) : RepoState :=
  { name := n, status := .pending, attemptCount := 0, phases := ⟨false, false⟩ }

/-- `StateManager.setRepoState(repoName, state)`. -/
def setRepoState (n : String) (p : RepoPatch) (s : MigrationState) : MigrationState :=
  let existing := (lookupRepo s.repos n).getD (defaultRepoState n)
  { s with repos := updateRepos s.repos n (applyPatch existing p) }

/-- `StateManager.markInProgress(repoName)` at time `now`. -/
def markInProgress (n : String) (now : Int) (s : MigrationState) : MigrationState :=
  setRepoState n
    { status := some .in_progress
      lastAttempt := some (some now)
      attemptCount := some ((((lookupRepo s.repos n).map (fun r => r.attemptCount)).getD 0) + 1) } s

/-- `StateManager.markCompleted(repoName)` at time `now`. -/
def markCompleted (n : String) (now : Int) (s : MigrationState) : MigrationState :=
  setRepoState n
    { status := some .completed
      completedAt := some (some now)
      lastSyncedAt := some (some now)
      error := some none
      errorType := some none
      phases := some ⟨true, true⟩ } s

/-- `StateManager.updateLastSynced(repoName, githubPushedAt?)` at time `now`;
the `githubPushedAt` key is spread only when the argument is truthy. -/
def updateLastSynced (n : String) (pushedAt : Option Int) (now : Int)
    (s : MigrationState) : MigrationState :=
  setRepoState n
    { lastSyncedAt := some (some now)
      githubPushedAt := match pushedAt with
        | some p => some (some p)
        | none => none } s

/-- `StateManager.updateGithubPushedAt(repoName, pushedAt)`. -/
def updateGithubPushedAt (n : String) (pushedAt : Int) (s : MigrationState) :
    MigrationState :=
  setRepoState n { githubPushedAt := some (some pushedAt) } s

/-- `StateManager.markFailed(repoName, error, errorType)`. -/
def markFailed (n : String) (err : String) (et : ErrorType) (s : MigrationState) :
    MigrationState :=
  setRepoState n { status := some .failed, error := some (some err), errorType := some (some et) } s

/-- `StateManager.markSkipped(repoName, reason)`; it writes
`errorType: undefined`, clearing the field. -/
def markSkipped (n : String) (reason : String) (s : MigrationState) : MigrationState :=
  setRepoState n { status := some .skipped, error := some (some reason), errorType := some none } s

/-- One of the two migration phases. -/
inductive MigrationPhase
  | apiMigration
  | branchSync
deriving DecidableEq, Repr

/-- `{ ...current.phases, [phase]: true }`. -/
def setPhaseFlag (f : PhaseFlags) (ph : MigrationPhase) : PhaseFlags :=
  match ph with
  | .apiMigration => { f with apiMigration := true }
  | .branchSync => { f with branchSync := true }

/-- `StateManager.markPhaseComplete(repoName, phase)`: a no-op when the repo
has no record. -/
def markPhaseComplete (n : String) (ph : MigrationPhase) (s : MigrationState) :
    MigrationState :=
  match lookupRepo s.repos n with
  | some current => setRepoState n { phases := some (setPhaseFlag current.phases ph) } s
  | none => s

/-- `StateManager.addRepos(repoNames)` at time `now`. -/
def addRepos (names : List String) (now : Int) (s : MigrationState) : MigrationState :=
  let rs := names.foldl (fun acc nm =>
    if acc.any (fun q => q.1 == nm) then acc
    else acc ++ [(nm, defaultRepoState nm)]) s.repos
  { s with repos := rs, totalRepos := rs.length, lastDiscovery := some now }

/-- One step of `StateManager.addReposWithPushedAt`: a fresh repo is inserted
pending with the discovered `githubPushedAt`; an existing repo only has its
`githubPushedAt` overwritten, and only when a pushed-at value was discovered. -/
def addRepoWithPushedAt (acc : List (String × RepoState)) (nm : String)
    (pushedAt : Option Int) : List (String × RepoState) :=
  if acc.any (fun q => q.1 == nm) then
    match pushedAt with
    | some p => acc.map (fun q => if q.1 == nm then (q.1, { q.2 with githubPushedAt := some p }) else q)
    | none => acc
  else acc ++ [(nm, { defaultRepoState nm with githubPushedAt := pushedAt })]

/-- `StateManager.addReposWithPushedAt(repos)` at time `now`. -/
def addReposWithPushedAt (repos : List (String × Option Int)) (now : Int)
    (s : MigrationState) : MigrationState :=
  let rs := repos.foldl (fun acc q => addRepoWithPushedAt acc q.1 q.2) s.repos
  { s with repos := rs, totalRepos := rs.length, lastDiscovery := some now }

/-- `StateManager.getPendingRepos()`. -/
def getPendingRepos (s : MigrationState) : List String :=
  (((s.repos.map Prod.snd).filter (fun r => r.status == .pending)).map (fun r => r.name))

/-- `StateManager.getRetryableRepos()`. -/
def getRetryableRepos (s : MigrationState) : List String :=
  (((s.repos.map Prod.snd).filter (fun r =>
    r.status == .failed &&
      (r.errorType == some .transient || r.errorType == some .recoverable))).map
    (fun r => r.name))

/-- Milliseconds per day (`24 * 60 * 60 * 1000`). -/
def msPerDay : Int := 86400000

/-- The filter predicate of `StateManager.getReposNeedingSync`. -/
def needsSyncFlag (excludeInactiveDays : Nat) (now : Int) (r : RepoState) : Bool :=
  if r.status != .completed then false
  else
    let cutoff : Option Int :=
      if excludeInactiveDays > 0 then some (now - (excludeInactiveDays : Int) * msPerDay)
      else none
    let staleExcluded : Bool :=
      match cutoff, r.githubPushedAt with
      | some c, some p => decide (p < c)
      | _, _ => false
    if staleExcluded then false
    else
      match r.lastSyncedAt with
      | none => r.githubPushedAt.isSome
      | some syncedAt =>
        match r.githubPushedAt with
        | some p => decide (p > syncedAt)
        | none => false

/-- `StateManager.getReposNeedingSync(excludeInactiveDays)` at time `now`. -/
def getReposNeedingSync (excludeInactiveDays : Nat) (now : Int) (s : MigrationState) :
    List String :=
  (((s.repos.map Prod.snd).filter (needsSyncFlag excludeInactiveDays now)).map
    (fun r => r.name))

/-- `StateManager.getReposToProcess(maxCount, includeNeedingSync, excludeInactiveDays)`. -/
def getReposToProcess (maxCount : Nat) (includeNeedingSync : Bool)
    (excludeInactiveDays : Nat) (now : Int) (s : MigrationState) : List String :=
  let retryable := getRetryableRepos s
  let pending := getPendingRepos s
  let needingSync :=
    if includeNeedingSync then getReposNeedingSync excludeInactiveDays now s else []
  (retryable ++ pending ++ needingSync).take maxCount

/-- Substring test helper: does `needle` start `hay`? -/
def startsWithChars (hay needle : List Char) : Bool :=
  match needle, hay with
  | [], _ => true
  | _ :: _, [] => false
  | n :: ns, h :: hs => n == h && startsWithChars hs ns

/-- Substring test helper: does `hay` contain `needle` as a contiguous run? -/
def hasInfixChars (hay needle : List Char) : Bool :=
  match hay with
  | [] => needle.isEmpty
  | _ :: hs => startsWithChars hay needle || hasInfixChars hs needle

/-- JS `hay.includes(needle)`. -/
def strContains (hay needle : String) : Bool :=
  hasInfixChars hay.toList needle.toList

/-- JS `s.toLowerCase()` (per-character lowering suffices for the ASCII
phrases the classifier tests). -/
def lowerStr (s : String) : String := String.mk (s.toList.map Char.toLower)

/-- `classifyError` from `repo-migrator.ts`: lower-case the message, then
first match wins in the order transient, recoverable, permanent, with
unrecognized messages defaulting to transient. -/
def classifyError (message : String) : ErrorType :=
  let m := lowerStr message
  if strContains m "rate limit" || strContains m "timeout" ||
      strContains m "econnreset" || strContains m "enotfound" ||
      strContains m "network" || strContains m "503" ||
      strContains m "502" || strContains m "504" then
    .transient
  else if strContains m "already exists" || strContains m "409" ||
      strContains m "conflict" then
    .recoverable
  else if strContains m "not found" || strContains m "404" ||
      strContains m "forbidden" || strContains m "403" ||
      strContains m "unauthorized" || strContains m "401" then
    .permanent
  else
    .transient

/-- Oracle outcomes of the migrator's remote collaborators for one run:
`none` is success, `some msg` a failure raised with message `msg`. -/
structure MigrationEnv where
  repoExistsResult : Bool
  apiMigrateResult : Option String
  syncResult : Option String
deriving DecidableEq, Repr

/-- A collaborator invocation made during a `migrateRepo` run. -/
inductive CollabCall
  | repoExistsCheck
  | apiMigrateCall
  | syncBranchesCall
deriving DecidableEq, Repr

/-- The `MigrationResult` record returned by `migrateRepo`. -/
structure MigrationResult where
  repoName : String
  success : Bool
  phases : PhaseFlags
  error : Option String := none
  errorType : Option ErrorType := none
deriving DecidableEq, Repr

/-- Result, final state and collaborator call trace of one `migrateRepo` run. -/
structure RunOutcome where
  result : MigrationResult
  state : MigrationState
  calls : List CollabCall
deriving DecidableEq, Repr

/-- Phase 2 (branch sync) and completion of `migrateRepo`.
`syncFlagAtEntry` is `currentState?.phases.branchSync === true`, read from
the state right after `markInProgress`; `apiDone` is `result.phases.apiMigration`
accumulated by phase 1. -/
def migrateRepoFinish (repoName : String) (env : MigrationEnv) (now : Int)
    (syncFlagAtEntry : Bool) (apiDone : Bool) (callsSoFar : List CollabCall)
    (s : MigrationState) : RunOutcome :=
  if syncFlagAtEntry then
    { result := { repoName := repoName, success := true, phases := ⟨apiDone, true⟩ }
      state := markCompleted repoName now s
      calls := callsSoFar }
  else
    match env.syncResult with
    | none =>
      { result := { repoName := repoName, success := true, phases := ⟨apiDone, true⟩ }
        state := markCompleted repoName now (markPhaseComplete repoName .branchSync s)
        calls := callsSoFar ++ [.syncBranchesCall] }
    | some msg =>
      { result := { repoName := repoName, success := false, phases := ⟨apiDone, false⟩
                    error := some msg, errorType := some (classifyError msg) }
        state := markFailed repoName msg (classifyError msg) s
        calls := callsSoFar ++ [.syncBranchesCall] }

/-- `migrateRepo` from `repo-migrator.ts` over the collaborator oracles.
Phase flags are read once, right after `markInProgress`; phase 1 is skipped
when its flag is set, otherwise the existence check and (if needed) the
migrate call run, with an "already exists"/"409" failure folded into phase-1
success; any other phase-1 failure records FAILED and stops before phase 2. -/
def migrateRepo (repoName : String) (env : MigrationEnv) (now : Int)
    (s0 : MigrationState) : RunOutcome :=
  let s1 := markInProgress repoName now s0
  let currentState := lookupRepo s1.repos repoName
  let apiFlag := (currentState.map (fun r => r.phases.apiMigration)).getD false
  let syncFlag := (currentState.map (fun r => r.phases.branchSync)).getD false
  if apiFlag then
    migrateRepoFinish repoName env now syncFlag true [] s1
  else if env.repoExistsResult then
    migrateRepoFinish repoName env now syncFlag true [.repoExistsCheck]
      (markPhaseComplete repoName .apiMigration s1)
  else
    match env.apiMigrateResult with
    | none =>
      migrateRepoFinish repoName env now syncFlag true [.repoExistsCheck, .apiMigrateCall]
        (markPhaseComplete repoName .apiMigration s1)
    | some msg =>
      if strContains msg "already exists" || strContains msg "409" then
        migrateRepoFinish repoName env now syncFlag true [.repoExistsCheck, .apiMigrateCall]
          (markPhaseComplete repoName .apiMigration s1)
      else
        { result := { repoName := repoName, success := false, phases := ⟨false, false⟩
                      error := some msg, errorType := some (classifyError msg) }
          state := markFailed repoName msg (classifyError msg) s1
          calls := [.repoExistsCheck, .apiMigrateCall] }

/-- The stored `phases.apiMigration` flag of a repo (`false` when absent). -/
def storedApiFlag (s : MigrationState) (n : String) : Bool :=
  ((lookupRepo s.repos n).map (fun r => r.phases.apiMigration)).getD false

/-- The stored `phases.branchSync` flag of a repo (`false` when absent). -/
def storedSyncFlag (s : MigrationState) (n : String) : Bool :=
  ((lookupRepo s.repos n).map (fun r => r.phases.branchSync)).getD false

/-- A full parsed batch record, as `merge-states.ts` hands it to
`setRepoState`: required keys are always present, optional keys are present
exactly when the record holds a value for them. -/
def toPatch (r : RepoState) : RepoPatch :=
  { name := some r.name
    status := some r.status
    lastAttempt := r.lastAttempt.map some
    completedAt := r.completedAt.map some
    lastSyncedAt := r.lastSyncedAt.map some
    githubPushedAt := r.githubPushedAt.map some
    error := r.error.map some
    errorType := r.errorType.map some
    attemptCount := some r.attemptCount
    phases := some r.phases }

/-- The merge guard of `merge-states.ts`: update iff there is no canonical
record, or the incoming record is completed, or its `lastAttempt` is present
and beats the canonical one (a present `lastAttempt` beats an absent one). -/
def mergeWins (existing : Option RepoState) (incoming : RepoState) : Bool :=
  match existing with
  | none => true
  | some e =>
    incoming.status == .completed ||
      (incoming.lastAttempt.isSome &&
        (!e.lastAttempt.isSome ||
          (match incoming.lastAttempt, e.lastAttempt with
           | some il, some el => decide (il > el)
           | _, _ => false)))

/-- One iteration of the merge loop of `merge-states.ts`. -/
def mergeStep (s : MigrationState) (q : String × RepoState) : MigrationState :=
  if mergeWins (lookupRepo s.repos q.1) q.2 then setRepoState q.1 (toPatch q.2) s else s

/-- The merge loop of `merge-states.ts` for one batch file's `repos`. -/
def mergeBatchState (s : MigrationState) (batchRepos : List (String × RepoState)) :
    MigrationState :=
  batchRepos.foldl mergeStep s

/-- Include/exclude filters consumed by discovery (`MigrationConfig`). -/
structure DiscoveryConfig where
  includeOnlyRepos : List String
  excludeRepos : List String
deriving DecidableEq, Repr

/-- The reason string `discoverRepos` records when skipping an inactive repo. -/
def skipReason (days : Nat) : String :=
  "Inactive: no commits in last " ++ toString days ++ " days"

/-- The mark-inactive-pending-repos-skipped loop of `discoverRepos`. -/
def skipLoop (activeNames : List String) (reason : String) (names : List String)
    (s : MigrationState) : MigrationState :=
  names.foldl (fun acc nm =>
    if activeNames.contains nm then acc else markSkipped nm reason acc) s

/-- The include/exclude filters of `discoverRepos` (applied only when
the respective config list is non-empty). -/
def discFiltered (ghRepos : List (String × Option Int)) (cfg : DiscoveryConfig) :
    List (String × Option Int) :=
  let f1 := if cfg.includeOnlyRepos.isEmpty then ghRepos
            else ghRepos.filter (fun q => cfg.includeOnlyRepos.contains q.1)
  if cfg.excludeRepos.isEmpty then f1
  else f1.filter (fun q => !(cfg.excludeRepos.contains q.1))

/-- The activity filter of `discoverRepos`: keep repos with a known
`pushedAt` not older than the cutoff. -/
def discActive (f2 : List (String × Option Int)) (excludeInactiveDays : Nat)
    (now : Int) : List (String × Option Int) :=
  f2.filter (fun q => match q.2 with
    | none => false
    | some p => decide (p ≥ now - (excludeInactiveDays : Int) * msPerDay))

/-- `discoverRepos` from `discover-and-batch.ts`: filter the discovered repo
list, record `githubPushedAt` for every filtered repo, and - when an
inactivity cutoff is set - drop inactive repos from the run and mark
still-pending inactive repos as skipped.  The calendar-day cutoff
(`setDate(getDate() - days)`) is abstracted as `now - days * msPerDay` on the
abstract timeline. -/
def discoverRepos (ghRepos : List (String × Option Int)) (cfg : DiscoveryConfig)
    (excludeInactiveDays : Nat) (now : Int) (s0 : MigrationState) :
    List String × MigrationState :=
  let f2 := discFiltered ghRepos cfg
  let s1 := addReposWithPushedAt f2 now s0
  if excludeInactiveDays > 0 then
    let activeNames := (discActive f2 excludeInactiveDays now).map (fun q => q.1)
    let s2 := skipLoop activeNames (skipReason excludeInactiveDays) (getPendingRepos s1) s1
    (activeNames, s2)
  else
    (f2.map (fun q => q.1), s1)

/-! Helper lemmas about the association-list state. -/

theorem lookup_updateRepos_self (l : List (String × RepoState)) (n : String)
    (r : RepoState) : lookupRepo (updateRepos l n r) n = some r := by
  unfold updateRepos lookupRepo
  by_cases h : l.any (fun q => q.1 == n)
  · rw [if_pos h, List.find?_map]
    have hp : ((fun q => q.1 == n) ∘ (fun q => if q.1 == n then (n, r) else q)) =
        (fun (q : String × RepoState) => q.1 == n) := by
      funext q
      by_cases hq : q.1 = n <;> simp [hq]
    rw [hp]
    obtain ⟨q₀, hq₀mem, hq₀⟩ := List.any_eq_true.mp h
    have hs : (l.find? (fun q => q.1 == n)).isSome :=
      List.find?_isSome.mpr ⟨q₀, hq₀mem, hq₀⟩
    obtain ⟨q₁, hq₁⟩ := Option.isSome_iff_exists.mp hs
    have hq₁p := List.find?_some hq₁
    have hq₁e : q₁.1 = n := by simpa using hq₁p
    rw [hq₁]
    simp [hq₁e]
  · rw [if_neg h, List.find?_append]
    have hnone : l.find? (fun q => q.1 == n) = none := by
      rw [List.find?_eq_none]
      intro x hx hpx
      exact h (List.any_eq_true.mpr ⟨x, hx, hpx⟩)
    simp [hnone, List.find?]

theorem lookup_updateRepos_other (l : List (String × RepoState)) (n n' : String)
    (r : RepoState) (h : n' ≠ n) :
    lookupRepo (updateRepos l n r) n' = lookupRepo l n' := by
  unfold updateRepos lookupRepo
  by_cases ha : l.any (fun q => q.1 == n)
  · rw [if_pos ha, List.find?_map]
    have hp : ((fun q => q.1 == n') ∘ (fun q => if q.1 == n then (n, r) else q)) =
        (fun (q : String × RepoState) => q.1 == n') := by
      funext q
      by_cases hq : q.1 = n
      · have h1 : (n == n') = false := by
          simp only [beq_eq_false_iff_ne, ne_eq]
          exact fun hc => h hc.symm
        simp [hq, h1]
      · simp [hq]
    rw [hp]
    cases hfind : l.find? (fun q => q.1 == n') with
    | none => simp
    | some q₁ =>
      have hq₁p := List.find?_some hfind
      have hq₁eq : q₁.1 = n' := by simpa using hq₁p
      have hq₁n : ¬ q₁.1 = n := by
        rw [hq₁eq]
        exact h
      simp [hq₁n]
  · rw [if_neg ha, List.find?_append]
    cases hfind : l.find? (fun q => q.1 == n') with
    | none =>
      have h1 : (n == n') = false := by
        simp only [beq_eq_false_iff_ne, ne_eq]
        exact fun hc => h hc.symm
      simp [hfind, List.find?, h1]
    | some q₁ => simp [hfind]

theorem lookup_setRepoState (n : String) (p : RepoPatch) (s : MigrationState)
    (n' : String) :
    lookupRepo (setRepoState n p s).repos n' =
      if n' = n then some (applyPatch ((lookupRepo s.repos n).getD (defaultRepoState n)) p)
      else lookupRepo s.repos n' := by
  unfold setRepoState
  by_cases h : n' = n
  · subst h
    simp [lookup_updateRepos_self]
  · simp [h, lookup_updateRepos_other _ _ _ _ h]

theorem lookupRepo_mem (l : List (String × RepoState)) (n : String) (r : RepoState)
    (h : lookupRepo l n = some r) : (n, r) ∈ l := by
  unfold lookupRepo at h
  cases hf : l.find? (fun q => q.1 == n) with
  | none => rw [hf] at h; simp at h
  | some q₁ =>
    rw [hf] at h
    simp only [Option.map_some'] at h
    have hq₁p := List.find?_some hf
    have hq₁e : q₁.1 = n := by simpa using hq₁p
    have hmem := List.mem_of_find?_eq_some hf
    have hsnd : q₁.2 = r := by simpa using h
    have hq : (n, r) = q₁ := by
      rw [← hq₁e, ← hsnd]
    rw [hq]
    exact hmem

theorem lookup_of_mem_nodup (l : List (String × RepoState)) (n : String) (r : RepoState)
    (hnd : (l.map Prod.fst).Nodup) (hmem : (n, r) ∈ l) : lookupRepo l n = some r := by
  induction l with
  | nil => simp at hmem
  | cons hd tl ih =>
    simp only [List.map_cons, List.nodup_cons] at hnd
    rcases List.mem_cons.mp hmem with heq | htl
    · rw [← heq]
      simp [lookupRepo, List.find?]
    · have hne : hd.1 ≠ n := by
        intro hc
        exact hnd.1 (by rw [hc]; exact List.mem_map.mpr ⟨(n, r), htl, rfl⟩)
      have hne' : (hd.1 == n) = false := by simp [hne]
      unfold lookupRepo
      rw [List.find?]
      rw [hne']
      exact ih hnd.2 htl

theorem filterMapSnd (l : List (String × RepoState)) (p : RepoState → Bool)
    (f : RepoState → String) :
    ((l.map Prod.snd).filter p).map f = (l.filter (fun q => p q.2)).map (fun q => f q.2) := by
  induction l with
  | nil => rfl
  | cons hd tl ih => by_cases h : p hd.2 <;> simp [h, ih]

theorem needsSync_completed (days : Nat) (now : Int) (r : RepoState)
    (h : needsSyncFlag days now r = true) : r.status = .completed := by
  unfold needsSyncFlag at h
  by_cases hs : r.status = .completed
  · exact hs
  · simp [hs] at h

/-- Every selected name is the `name` field of a stored record that is
retryable-failed, pending, or (in sync mode) needing sync. -/
theorem mem_getReposToProcess (maxCount : Nat) (inc : Bool) (days : Nat) (now : Int)
    (s : MigrationState) (n : String)
    (h : n ∈ getReposToProcess maxCount inc days now s) :
    ∃ q ∈ s.repos, q.2.name = n ∧
      ((q.2.status = .failed ∧
          (q.2.errorType = some .transient ∨ q.2.errorType = some .recoverable)) ∨
        q.2.status = .pending ∨
        (inc = true ∧ needsSyncFlag days now q.2 = true)) := by
  unfold getReposToProcess at h
  have h' := List.mem_of_mem_take h
  rcases List.mem_append.mp h' with h12 | h3
  rcases List.mem_append.mp h12 with h1 | h2
  · unfold getRetryableRepos at h1
    rw [filterMapSnd] at h1
    obtain ⟨q, hq, hname⟩ := List.mem_map.mp h1
    obtain ⟨hql, hpred⟩ := List.mem_filter.mp hq
    refine ⟨q, hql, hname, Or.inl ?_⟩
    simp only [Bool.and_eq_true, Bool.or_eq_true, beq_iff_eq] at hpred
    exact ⟨hpred.1, hpred.2⟩
  · unfold getPendingRepos at h2
    rw [filterMapSnd] at h2
    obtain ⟨q, hq, hname⟩ := List.mem_map.mp h2
    obtain ⟨hql, hpred⟩ := List.mem_filter.mp hq
    refine ⟨q, hql, hname, Or.inr (Or.inl ?_)⟩
    simpa using hpred
  · cases hinc : inc with
    | false => rw [hinc] at h3; simp at h3
    | true =>
      rw [hinc] at h3
      simp only [if_true] at h3
      unfold getReposNeedingSync at h3
      rw [filterMapSnd] at h3
      obtain ⟨q, hq, hname⟩ := List.mem_map.mp h3
      obtain ⟨hql, hpred⟩ := List.mem_filter.mp hq
      exact ⟨q, hql, hname, Or.inr (Or.inr ⟨rfl, hpred⟩)⟩

/-- With well-formed keys (each record's `name` equals its key) and no
duplicate keys, a stored record is determined by its `name` field. -/
theorem record_unique (s : MigrationState)
    (hWF : ∀ q ∈ s.repos, q.2.name = q.1)
    (hNodup : (s.repos.map Prod.fst).Nodup)
    (k : String) (r : RepoState) (hmem : (k, r) ∈ s.repos)
    (q : String × RepoState) (hql : q ∈ s.repos) (hname : q.2.name = r.name) :
    q.2 = r := by
  have hrk : r.name = k := hWF (k, r) hmem
  have hqk : q.1 = k := by rw [← hWF q hql, hname, hrk]
  have h1 : lookupRepo s.repos k = some r := lookup_of_mem_nodup _ _ _ hNodup hmem
  have h2 : lookupRepo s.repos k = some q.2 := by
    rw [← hqk]
    exact lookup_of_mem_nodup _ _ _ hNodup (by rw [Prod.mk.eta]; exact hql)
  rw [h1] at h2
  exact (Option.some.inj h2).symm

/-- C2: `getReposToProcess` is the concatenation retryable-failed ++ pending
++ (when enabled) needing-sync, each group filtered from the repos map in
insertion order, truncated to `maxCount`; permanently failed repos are never
selected. -/
theorem C2_selector_characterization (s : MigrationState) (maxCount : Nat)
    (includeSync : Bool) (days : Nat) (now : Int)
    (hWF : ∀ q ∈ s.repos, q.2.name = q.1)
    (hNodup : (s.repos.map Prod.fst).Nodup) :
    getReposToProcess maxCount includeSync days now s =
      (((s.repos.filter (fun q => q.2.status == RepoStatus.failed &&
            (q.2.errorType == some ErrorType.transient ||
              q.2.errorType == some ErrorType.recoverable))).map (fun q => q.2.name))
        ++ ((s.repos.filter (fun q => q.2.status == RepoStatus.pending)).map
              (fun q => q.2.name))
        ++ (if includeSync then
              (s.repos.filter (fun q => needsSyncFlag days now q.2)).map
                (fun q => q.2.name)
            else [])).take maxCount
    ∧ ∀ k r, (k, r) ∈ s.repos → r.status = RepoStatus.failed →
        r.errorType = some ErrorType.permanent →
        r.name ∉ getReposToProcess maxCount includeSync days now s := by
  constructor
  · unfold getReposToProcess getRetryableRepos getPendingRepos getReposNeedingSync
    cases includeSync <;> simp [filterMapSnd]
  · intro k r hmem hst het hin
    obtain ⟨q, hql, hname, hcases⟩ := mem_getReposToProcess _ _ _ _ _ _ hin
    have hrk : r.name = k := hWF (k, r) hmem
    have heq : q.2 = r := record_unique s hWF hNodup k r hmem q hql (by rw [hname, hrk])
    rcases hcases with ⟨hf, het'⟩ | hp | ⟨_, hns⟩
    · rw [heq, het] at het'
      rcases het' with h | h <;> simp at h
    · rw [heq, hst] at hp
      simp at hp
    · have hc := needsSync_completed _ _ _ hns
      rw [heq, hst] at hc
      simp at hc

/-- C10: the selector never returns the name of a stored repo whose status
is `in_progress` or `skipped`. -/
theorem C10_inProgressNeverSelected (s : MigrationState) (maxCount : Nat)
    (inc : Bool) (days : Nat) (now : Int) (k : String) (r : RepoState)
    (hWF : ∀ q ∈ s.repos, q.2.name = q.1)
    (hNodup : (s.repos.map Prod.fst).Nodup)
    (hmem : (k, r) ∈ s.repos)
    (hst : r.status = RepoStatus.in_progress ∨ r.status = RepoStatus.skipped) :
    r.name ∉ getReposToProcess maxCount inc days now s := by
  intro hin
  obtain ⟨q, hql, hname, hcases⟩ := mem_getReposToProcess _ _ _ _ _ _ hin
  have heq : q.2 = r := record_unique s hWF hNodup k r hmem q hql hname
  rcases hcases with ⟨hf, _⟩ | hp | ⟨_, hns⟩
  · rw [heq] at hf
    rcases hst with h | h <;> rw [h] at hf <;> simp at hf
  · rw [heq] at hp
    rcases hst with h | h <;> rw [h] at hp <;> simp at hp
  · have hc := needsSync_completed _ _ _ hns
    rw [heq] at hc
    rcases hst with h | h <;> rw [h] at hc <;> simp at hc

/-- Concrete repos and snapshot exercising the selector claims. -/
def wsRepoA : RepoState := { name := "a", status := .pending }

def wsRepoB : RepoState :=
  { name := "b", status := .failed, errorType := some .transient, error := some "timeout" }

def wsRepoC : RepoState :=
  { name := "c", status := .failed, errorType := some .recoverable, error := some "409" }

def wsRepoD : RepoState :=
  { name := "d", status := .completed, phases := ⟨true, true⟩, lastSyncedAt := some 1
    githubPushedAt := some 5 }

def wsRepoE : RepoState :=
  { name := "e", status := .failed, errorType := some .permanent, error := some "404" }

def wsRepoF : RepoState := { name := "f", status := .in_progress, attemptCount := 1 }

def wsState : MigrationState :=
  { sourceOrg := "src", targetOrg := "dst"
    repos := [("b", wsRepoB), ("c", wsRepoC), ("a", wsRepoA), ("d", wsRepoD),
              ("e", wsRepoE), ("f", wsRepoF)] }

theorem C2_selector_witness :
    wsRepoE.name ∉ getReposToProcess 3 true 0 10 wsState :=
  (C2_selector_characterization wsState 3 true 0 10 (by decide) (by decide)).2 "e" wsRepoE
    (by decide) (by decide) (by decide)

theorem C10_witness :
    wsRepoF.name ∉ getReposToProcess 10 true 0 10 wsState :=
  C10_inProgressNeverSelected wsState 10 true 0 10 "f" wsRepoF (by decide) (by decide)
    (by decide) (Or.inl (by decide))

/-- C8: sync detection for completed repos: a stale-cutoff exclusion wins;
otherwise a missing `lastSyncedAt` needs sync exactly when a remote
timestamp is known; otherwise sync is needed iff the remote timestamp is
present and strictly later than `lastSyncedAt`; non-completed repos are
never reported. -/
theorem C8_needsSync_cases (days : Nat) (now : Int) (r : RepoState) :
    (r.status ≠ RepoStatus.completed → needsSyncFlag days now r = false) ∧
    (r.status = RepoStatus.completed → days > 0 →
      ∀ p, r.githubPushedAt = some p → p < now - (days : Int) * msPerDay →
        needsSyncFlag days now r = false) ∧
    (r.status = RepoStatus.completed →
      (days = 0 ∨ ∀ p, r.githubPushedAt = some p → ¬ p < now - (days : Int) * msPerDay) →
      r.lastSyncedAt = none →
      needsSyncFlag days now r = r.githubPushedAt.isSome) ∧
    (r.status = RepoStatus.completed →
      (days = 0 ∨ ∀ p, r.githubPushedAt = some p → ¬ p < now - (days : Int) * msPerDay) →
      ∀ t, r.lastSyncedAt = some t →
        (needsSyncFlag days now r = true ↔ ∃ p, r.githubPushedAt = some p ∧ p > t)) ∧
    ∀ (s : MigrationState), (∀ q ∈ s.repos, q.2.name = q.1) →
      (s.repos.map Prod.fst).Nodup →
      ∀ k, (k, r) ∈ s.repos → r.status ≠ RepoStatus.completed →
        r.name ∉ getReposNeedingSync days now s := by
  refine ⟨?_, ?_, ?_, ?_, ?_⟩
  · intro h
    unfold needsSyncFlag
    simp [h]
  · intro hst hd p hp hlt
    unfold needsSyncFlag
    have hd' : (0 < days) = True := by simp [hd]
    simp only [hst, bne_self_eq_false, Bool.false_eq_true, if_false, hd', if_true, hp]
    simp [hd, hp, hlt]
  · intro hst hno hsync
    unfold needsSyncFlag
    rcases hno with h0 | hnp
    · subst h0
      simp [hst, hsync]
    · cases hp : r.githubPushedAt with
      | none => simp [hst, hsync, hp]
      | some p =>
        have := hnp p hp
        by_cases hdays : days > 0 <;> simp [hst, hsync, hp, hdays, this]
  · intro hst hno t hsync
    unfold needsSyncFlag
    rcases hno with h0 | hnp
    · subst h0
      cases hp : r.githubPushedAt with
      | none => simp [hst, hsync, hp]
      | some p => simp [hst, hsync, hp]
    · cases hp : r.githubPushedAt with
      | none => by_cases hdays : days > 0 <;> simp [hst, hsync, hp, hdays]
      | some p =>
        have := hnp p hp
        by_cases hdays : days > 0 <;> simp [hst, hsync, hp, hdays, this]
  · intro s hWF hNodup k hmem hst hin
    unfold getReposNeedingSync at hin
    rw [filterMapSnd] at hin
    obtain ⟨q, hq, hname⟩ := List.mem_map.mp hin
    obtain ⟨hql, hpred⟩ := List.mem_filter.mp hq
    have heq : q.2 = r := record_unique s hWF hNodup k r hmem q hql hname
    have hc := needsSync_completed _ _ _ hpred
    rw [heq] at hc
    exact hst hc

theorem C8_needsSync_witness :
    needsSyncFlag 0 100 wsRepoD = wsRepoD.githubPushedAt.isSome ∨
      (needsSyncFlag 0 100 wsRepoD = true ↔
        ∃ p, wsRepoD.githubPushedAt = some p ∧ p > 1) :=
  Or.inr ((C8_needsSync_cases 0 100 wsRepoD).2.2.2.1 (by decide) (Or.inl rfl) 1 (by decide))

/-- The transient phrase list the code actually tests (note the Node error
codes `econnreset` / `enotfound`, not the spelled-out phrases). -/
def transientPhrases : List String :=
  ["rate limit", "timeout", "econnreset", "enotfound", "network", "503", "502", "504"]

/-- The recoverable (conflict-style) phrase list. -/
def recoverablePhrases : List String := ["already exists", "409", "conflict"]

/-- The permanent phrase list. -/
def permanentPhrases : List String :=
  ["not found", "404", "forbidden", "403", "unauthorized", "401"]

/-- The transient phrase list as the spec words it, with literal
"connection reset" and "not found [dns]" phrases. -/
def specTransientPhrases : List String :=
  ["rate limit", "timeout", "connection reset", "not found [dns]", "network",
   "502", "503", "504"]

/-- The classifier as the spec claims it, built from `specTransientPhrases`
(the recoverable and permanent phrase sets agree with the code). -/
def classifyClaim (message : String) : ErrorType :=
  let m := lowerStr message
  if specTransientPhrases.any (fun ph => strContains m ph) then .transient
  else if recoverablePhrases.any (fun ph => strContains m ph) then .recoverable
  else if permanentPhrases.any (fun ph => strContains m ph) then .permanent
  else .transient

theorem C5_classifier_counterexample :
    classifyClaim "not found [dns]" = ErrorType.transient ∧
      classifyError "not found [dns]" = ErrorType.permanent := by
  constructor <;> decide

/-- C5 (amended): the classifier lower-cases the message and applies
first-match-wins in the order transient, recoverable, permanent, default
transient, with the transient set using the Node error codes `econnreset` /
`enotfound`; a Node DNS failure therefore classifies transient. -/
theorem C5_classifier_amended (msg : String) :
    classifyError msg =
      (if transientPhrases.any (fun ph => strContains (lowerStr msg) ph) then
        ErrorType.transient
       else if recoverablePhrases.any (fun ph => strContains (lowerStr msg) ph) then
        ErrorType.recoverable
       else if permanentPhrases.any (fun ph => strContains (lowerStr msg) ph) then
        ErrorType.permanent
       else ErrorType.transient) ∧
    classifyError "getaddrinfo ENOTFOUND example.com" = ErrorType.transient := by
  refine ⟨?_, by decide⟩
  unfold classifyError transientPhrases recoverablePhrases permanentPhrases
  simp only [List.any_cons, List.any_nil, Bool.or_false, Bool.or_assoc]

/-- The stated invariant: `status == completed` implies both phase flags. -/
def invPredR (r : RepoState) : Bool :=
  !(r.status == RepoStatus.completed) || (r.phases.apiMigration && r.phases.branchSync)

/-- The invariant over the whole snapshot. -/
def completedImpliesPhases (s : MigrationState) : Bool :=
  s.repos.all (fun q => invPredR q.2)

theorem all_updateRepos (l : List (String × RepoState)) (n : String) (r : RepoState)
    (hl : l.all (fun q => invPredR q.2) = true) (hr : invPredR r = true) :
    (updateRepos l n r).all (fun q => invPredR q.2) = true := by
  unfold updateRepos
  by_cases h : l.any (fun q => q.1 == n)
  · rw [if_pos h, List.all_map]
    rw [List.all_eq_true] at hl ⊢
    intro q hq
    by_cases hqn : q.1 = n
    · simpa [Function.comp, hqn] using hr
    · simpa [Function.comp, hqn] using hl q hq
  · rw [if_neg h, List.all_append]
    simp [hl, hr]

theorem invPredR_of_lookup (s : MigrationState)
    (hInv : completedImpliesPhases s = true) (n : String) :
    invPredR ((lookupRepo s.repos n).getD (defaultRepoState n)) = true := by
  cases h : lookupRepo s.repos n with
  | none => simp [defaultRepoState, invPredR]
  | some r =>
    have hmem := lookupRepo_mem _ _ _ h
    simpa using List.all_eq_true.mp hInv _ hmem

theorem inv_setRepoState (n : String) (p : RepoPatch) (s : MigrationState)
    (hInv : completedImpliesPhases s = true)
    (hnew : invPredR (applyPatch ((lookupRepo s.repos n).getD (defaultRepoState n)) p) = true) :
    completedImpliesPhases (setRepoState n p s) = true := by
  unfold completedImpliesPhases setRepoState
  exact all_updateRepos _ _ _ hInv hnew

theorem setPhaseFlag_keeps (f : PhaseFlags) (ph : MigrationPhase)
    (h : (f.apiMigration && f.branchSync) = true) :
    ((setPhaseFlag f ph).apiMigration && (setPhaseFlag f ph).branchSync) = true := by
  cases ph <;> simp [setPhaseFlag] <;> simp at h <;> simp [h]

theorem inv_addRepoWithPushedAt (acc : List (String × RepoState)) (nm : String)
    (pa : Option Int) (h : acc.all (fun q => invPredR q.2) = true) :
    (addRepoWithPushedAt acc nm pa).all (fun q => invPredR q.2) = true := by
  unfold addRepoWithPushedAt
  by_cases ha : acc.any (fun q => q.1 == nm)
  · rw [if_pos ha]
    cases pa with
    | none => exact h
    | some p =>
      rw [List.all_map]
      rw [List.all_eq_true] at h ⊢
      intro q hq
      by_cases hqn : q.1 = nm
      · have := h q hq
        simpa [Function.comp, hqn, invPredR] using this
      · simpa [Function.comp, hqn] using h q hq
  · rw [if_neg ha, List.all_append, h]
    simp [invPredR, defaultRepoState]

theorem all_addReposFold (names : List String) (acc : List (String × RepoState))
    (h : acc.all (fun q => invPredR q.2) = true) :
    (names.foldl (fun acc nm =>
      if acc.any (fun q => q.1 == nm) then acc
      else acc ++ [(nm, defaultRepoState nm)]) acc).all (fun q => invPredR q.2) = true := by
  induction names generalizing acc with
  | nil => exact h
  | cons nm rest ih =>
    simp only [List.foldl_cons]
    apply ih
    by_cases ha : acc.any (fun q => q.1 == nm)
    · rw [if_pos ha]
      exact h
    · rw [if_neg ha, List.all_append, h]
      simp [invPredR, defaultRepoState]

theorem all_addReposWithPushedAtFold (reposL : List (String × Option Int))
    (acc : List (String × RepoState))
    (h : acc.all (fun q => invPredR q.2) = true) :
    (reposL.foldl (fun acc q => addRepoWithPushedAt acc q.1 q.2) acc).all
      (fun q => invPredR q.2) = true := by
  induction reposL generalizing acc with
  | nil => exact h
  | cons q rest ih =>
    simp only [List.foldl_cons]
    exact ih _ (inv_addRepoWithPushedAt acc q.1 q.2 h)

/-- The state with no repos, base of the `setRepoState` counterexample. -/
def c6Base : MigrationState := { sourceOrg := "s", targetOrg := "t" }

/-- The raw patch `{ status: "completed" }`. -/
def c6Patch : RepoPatch := { status := some RepoStatus.completed }

theorem C6_counterexample :
    completedImpliesPhases c6Base = true ∧
      completedImpliesPhases (setRepoState "a" c6Patch c6Base) = false := by
  constructor <;> decide

/-- C6 (amended): every named `StateManager` mutation other than the raw
`setRepoState` patch preserves the invariant that a completed repo has both
phase flags set (`setRepoState` itself can violate it, see the
counterexample). -/
theorem C6_invariant_amended (s : MigrationState)
    (hInv : completedImpliesPhases s = true)
    (n : String) (now : Int) (e : String) (et : ErrorType) (ph : MigrationPhase)
    (pa : Option Int) (p : Int) (names : List String)
    (reposL : List (String × Option Int)) :
    completedImpliesPhases (markInProgress n now s) = true ∧
    completedImpliesPhases (markCompleted n now s) = true ∧
    completedImpliesPhases (markFailed n e et s) = true ∧
    completedImpliesPhases (markSkipped n e s) = true ∧
    completedImpliesPhases (markPhaseComplete n ph s) = true ∧
    completedImpliesPhases (updateLastSynced n pa now s) = true ∧
    completedImpliesPhases (updateGithubPushedAt n p s) = true ∧
    completedImpliesPhases (addRepos names now s) = true ∧
    completedImpliesPhases (addReposWithPushedAt reposL now s) = true := by
  refine ⟨?_, ?_, ?_, ?_, ?_, ?_, ?_, ?_, ?_⟩
  · refine inv_setRepoState _ _ _ hInv ?_
    simp [applyPatch, invPredR]
  · refine inv_setRepoState _ _ _ hInv ?_
    simp [applyPatch, invPredR]
  · refine inv_setRepoState _ _ _ hInv ?_
    simp [applyPatch, invPredR]
  · refine inv_setRepoState _ _ _ hInv ?_
    simp [applyPatch, invPredR]
  · cases hcur : lookupRepo s.repos n with
    | none => simpa [markPhaseComplete, hcur] using hInv
    | some current =>
      simp only [markPhaseComplete, hcur]
      refine inv_setRepoState _ _ _ hInv ?_
      have hold := invPredR_of_lookup s hInv n
      rw [hcur] at hold
      simp only [Option.getD_some] at hold ⊢
      rw [hcur]
      simp only [Option.getD_some]
      by_cases hc : current.status = RepoStatus.completed
      · unfold invPredR at hold ⊢
        simp only [applyPatch]
        simp only [hc, beq_self_eq_true, Bool.not_true, Bool.false_or] at hold
        simp [hc, setPhaseFlag_keeps _ _ hold]
      · simp [applyPatch, invPredR, hc]
  · refine inv_setRepoState _ _ _ hInv ?_
    have hold := invPredR_of_lookup s hInv n
    unfold invPredR at hold ⊢
    simpa [applyPatch] using hold
  · refine inv_setRepoState _ _ _ hInv ?_
    have hold := invPredR_of_lookup s hInv n
    unfold invPredR at hold ⊢
    simpa [applyPatch] using hold
  · unfold addRepos completedImpliesPhases
    exact all_addReposFold names s.repos hInv
  · unfold addReposWithPushedAt completedImpliesPhases
    exact all_addReposWithPushedAtFold reposL s.repos hInv

theorem C6_invariant_witness :
    completedImpliesPhases (markCompleted "a" 7 wsState) = true :=
  (C6_invariant_amended wsState (by decide) "a" 7 "e" ErrorType.transient
    MigrationPhase.apiMigration none 0 [] []).2.1

/-- Pointwise ordering of phase flags (monotonicity target). -/
def flagsLE (a b : PhaseFlags) : Prop :=
  (a.apiMigration = true → b.apiMigration = true) ∧
    (a.branchSync = true → b.branchSync = true)

theorem flagsLE_refl (a : PhaseFlags) : flagsLE a a :=
  ⟨fun h => h, fun h => h⟩

theorem flagsLE_setPhaseFlag (f : PhaseFlags) (ph : MigrationPhase) :
    flagsLE f (setPhaseFlag f ph) := by
  cases ph <;> exact ⟨by simp [setPhaseFlag], by simp [setPhaseFlag]⟩

theorem lookup_after_setRepoState_of_lookup (n : String) (p : RepoPatch)
    (s : MigrationState) (n' : String) (r : RepoState)
    (h : lookupRepo s.repos n' = some r) :
    lookupRepo (setRepoState n p s).repos n' =
      some (if n' = n then applyPatch r p else r) := by
  rw [lookup_setRepoState]
  by_cases hn : n' = n
  · subst hn
    rw [h]
    simp
  · simp [hn, h]

theorem lookup_append_of_some (acc l₂ : List (String × RepoState)) (n' : String)
    (r : RepoState) (h : lookupRepo acc n' = some r) :
    lookupRepo (acc ++ l₂) n' = some r := by
  unfold lookupRepo at h ⊢
  rw [List.find?_append]
  cases hf : acc.find? (fun q => q.1 == n') with
  | none => rw [hf] at h; simp at h
  | some q₁ => rw [hf] at h; simp [h]

/-- Field-wise equality up to `githubPushedAt`. -/
def sameExceptPushed (r r' : RepoState) : Prop :=
  r'.name = r.name ∧ r'.status = r.status ∧ r'.lastAttempt = r.lastAttempt ∧
    r'.completedAt = r.completedAt ∧ r'.lastSyncedAt = r.lastSyncedAt ∧
    r'.error = r.error ∧ r'.errorType = r.errorType ∧
    r'.attemptCount = r.attemptCount ∧ r'.phases = r.phases

theorem sameExceptPushed_refl (r : RepoState) : sameExceptPushed r r :=
  ⟨rfl, rfl, rfl, rfl, rfl, rfl, rfl, rfl, rfl⟩

theorem sameExceptPushed_trans (a b c : RepoState)
    (h₁ : sameExceptPushed a b) (h₂ : sameExceptPushed b c) : sameExceptPushed a c := by
  obtain ⟨x1, x2, x3, x4, x5, x6, x7, x8, x9⟩ := h₁
  obtain ⟨y1, y2, y3, y4, y5, y6, y7, y8, y9⟩ := h₂
  exact ⟨y1.trans x1, y2.trans x2, y3.trans x3, y4.trans x4, y5.trans x5,
    y6.trans x6, y7.trans x7, y8.trans x8, y9.trans x9⟩

theorem lookup_addRepoWithPushedAt_step (acc : List (String × RepoState)) (nm : String)
    (pa : Option Int) (n' : String) (r : RepoState)
    (h : lookupRepo acc n' = some r) :
    ∃ r', lookupRepo (addRepoWithPushedAt acc nm pa) n' = some r' ∧
      sameExceptPushed r r' := by
  unfold addRepoWithPushedAt
  by_cases ha : acc.any (fun q => q.1 == nm)
  · rw [if_pos ha]
    cases pa with
    | none => exact ⟨r, h, sameExceptPushed_refl r⟩
    | some p =>
      unfold lookupRepo at h ⊢
      rw [List.find?_map]
      have hp : ((fun q => q.1 == n') ∘
          (fun q => if q.1 == nm then (q.1, { q.2 with githubPushedAt := some p }) else q)) =
          (fun (q : String × RepoState) => q.1 == n') := by
        funext q
        by_cases hq : q.1 = nm <;> simp [hq]
      rw [hp]
      cases hf : acc.find? (fun q => q.1 == n') with
      | none => rw [hf] at h; simp at h
      | some q₁ =>
        rw [hf] at h
        simp only [Option.map_some'] at h ⊢
        have hr : q₁.2 = r := by simpa using h
        subst hr
        by_cases hq : q₁.1 = nm
        · exact ⟨{ q₁.2 with githubPushedAt := some p }, by simp [hq],
            ⟨rfl, rfl, rfl, rfl, rfl, rfl, rfl, rfl, rfl⟩⟩
        · exact ⟨q₁.2, by simp [hq], sameExceptPushed_refl _⟩
  · rw [if_neg ha]
    exact ⟨r, lookup_append_of_some _ _ _ _ h, sameExceptPushed_refl r⟩

theorem lookup_pushedAtFold (reposL : List (String × Option Int))
    (acc : List (String × RepoState)) (n' : String) (r : RepoState)
    (h : lookupRepo acc n' = some r) :
    ∃ r', lookupRepo (reposL.foldl (fun acc q => addRepoWithPushedAt acc q.1 q.2) acc) n' =
      some r' ∧ sameExceptPushed r r' := by
  induction reposL generalizing acc r with
  | nil => exact ⟨r, h, sameExceptPushed_refl r⟩
  | cons q rest ih =>
    obtain ⟨r₁, h₁, hs₁⟩ := lookup_addRepoWithPushedAt_step acc q.1 q.2 n' r h
    obtain ⟨r₂, h₂, hs₂⟩ := ih _ r₁ h₁
    exact ⟨r₂, by simpa using h₂, sameExceptPushed_trans _ _ _ hs₁ hs₂⟩

theorem lookup_addReposFoldFrame (names : List String)
    (acc : List (String × RepoState)) (n' : String) (r : RepoState)
    (h : lookupRepo acc n' = some r) :
    lookupRepo (names.foldl (fun acc nm =>
      if acc.any (fun q => q.1 == nm) then acc
      else acc ++ [(nm, defaultRepoState nm)]) acc) n' = some r := by
  induction names generalizing acc with
  | nil => exact h
  | cons nm rest ih =>
    simp only [List.foldl_cons]
    apply ih
    by_cases ha : acc.any (fun q => q.1 == nm)
    · rw [if_pos ha]
      exact h
    · rw [if_neg ha]
      exact lookup_append_of_some _ _ _ _ h

/-- A completed repo with both flags set and two recorded attempts. -/
def c7Repo : RepoState :=
  { name := "a", status := .completed, attemptCount := 2, phases := ⟨true, true⟩ }

/-- Base state of the flag-reset counterexample. -/
def c7Base : MigrationState :=
  { sourceOrg := "s", targetOrg := "t", repos := [("a", c7Repo)] }

/-- The raw patch resetting both flags and the attempt counter. -/
def c7Patch : RepoPatch := { attemptCount := some 0, phases := some ⟨false, false⟩ }

theorem C7_counterexample :
    (lookupRepo c7Base.repos "a").map (fun r => r.phases.apiMigration) = some true ∧
    (lookupRepo (setRepoState "a" c7Patch c7Base).repos "a").map
      (fun r => r.phases.apiMigration) = some false ∧
    (lookupRepo (setRepoState "a" c7Patch c7Base).repos "a").map
      (fun r => r.attemptCount) = some 0 := by
  refine ⟨by decide, by decide, by decide⟩

/-- C7 (amended): under every named `StateManager` mutation other than the
raw `setRepoState` patch, stored phase flags are monotone and
`attemptCount` never decreases; `markInProgress` increments the target's
`attemptCount` by exactly one, and no other named mutation changes any
`attemptCount`. -/
theorem C7_monotone_amended (s : MigrationState) (n : String) (now : Int)
    (e : String) (et : ErrorType) (ph : MigrationPhase) (pa : Option Int)
    (p : Int) (names : List String) (reposL : List (String × Option Int)) :
    (∀ n' r r', lookupRepo s.repos n' = some r →
      lookupRepo (markInProgress n now s).repos n' = some r' →
      flagsLE r.phases r'.phases ∧
        (n' = n → r'.attemptCount = r.attemptCount + 1) ∧
        (n' ≠ n → r'.attemptCount = r.attemptCount)) ∧
    (∀ n' r r', lookupRepo s.repos n' = some r →
      lookupRepo (markCompleted n now s).repos n' = some r' →
      flagsLE r.phases r'.phases ∧ r'.attemptCount = r.attemptCount) ∧
    (∀ n' r r', lookupRepo s.repos n' = some r →
      lookupRepo (markFailed n e et s).repos n' = some r' →
      flagsLE r.phases r'.phases ∧ r'.attemptCount = r.attemptCount) ∧
    (∀ n' r r', lookupRepo s.repos n' = some r →
      lookupRepo (markSkipped n e s).repos n' = some r' →
      flagsLE r.phases r'.phases ∧ r'.attemptCount = r.attemptCount) ∧
    (∀ n' r r', lookupRepo s.repos n' = some r →
      lookupRepo (markPhaseComplete n ph s).repos n' = some r' →
      flagsLE r.phases r'.phases ∧ r'.attemptCount = r.attemptCount) ∧
    (∀ n' r r', lookupRepo s.repos n' = some r →
      lookupRepo (updateLastSynced n pa now s).repos n' = some r' →
      flagsLE r.phases r'.phases ∧ r'.attemptCount = r.attemptCount) ∧
    (∀ n' r r', lookupRepo s.repos n' = some r →
      lookupRepo (updateGithubPushedAt n p s).repos n' = some r' →
      flagsLE r.phases r'.phases ∧ r'.attemptCount = r.attemptCount) ∧
    (∀ n' r r', lookupRepo s.repos n' = some r →
      lookupRepo (addRepos names now s).repos n' = some r' →
      flagsLE r.phases r'.phases ∧ r'.attemptCount = r.attemptCount) ∧
    (∀ n' r r', lookupRepo s.repos n' = some r →
      lookupRepo (addReposWithPushedAt reposL now s).repos n' = some r' →
      flagsLE r.phases r'.phases ∧ r'.attemptCount = r.attemptCount) := by
  refine ⟨?_, ?_, ?_, ?_, ?_, ?_, ?_, ?_, ?_⟩
  · intro n' r r' h h'
    unfold markInProgress at h'
    rw [lookup_after_setRepoState_of_lookup _ _ _ _ _ h] at h'
    have hr' := (Option.some.inj h').symm
    by_cases hn : n' = n
    · subst hn
      rw [h] at hr'
      simp only [if_pos rfl, applyPatch, Option.getD_some, Option.map_some'] at hr'
      subst hr'
      exact ⟨flagsLE_refl _, fun _ => rfl, fun hc => absurd rfl hc⟩
    · rw [if_neg hn] at hr'
      subst hr'
      exact ⟨flagsLE_refl _, fun hc => absurd hc hn, fun _ => rfl⟩
  · intro n' r r' h h'
    unfold markCompleted at h'
    rw [lookup_after_setRepoState_of_lookup _ _ _ _ _ h] at h'
    have hr' := (Option.some.inj h').symm
    by_cases hn : n' = n
    · rw [if_pos hn] at hr'
      subst hr'
      exact ⟨⟨fun _ => rfl, fun _ => rfl⟩, rfl⟩
    · rw [if_neg hn] at hr'
      subst hr'
      exact ⟨flagsLE_refl _, rfl⟩
  · intro n' r r' h h'
    unfold markFailed at h'
    rw [lookup_after_setRepoState_of_lookup _ _ _ _ _ h] at h'
    have hr' := (Option.some.inj h').symm
    by_cases hn : n' = n
    · rw [if_pos hn] at hr'
      subst hr'
      exact ⟨flagsLE_refl _, rfl⟩
    · rw [if_neg hn] at hr'
      subst hr'
      exact ⟨flagsLE_refl _, rfl⟩
  · intro n' r r' h h'
    unfold markSkipped at h'
    rw [lookup_after_setRepoState_of_lookup _ _ _ _ _ h] at h'
    have hr' := (Option.some.inj h').symm
    by_cases hn : n' = n
    · rw [if_pos hn] at hr'
      subst hr'
      exact ⟨flagsLE_refl _, rfl⟩
    · rw [if_neg hn] at hr'
      subst hr'
      exact ⟨flagsLE_refl _, rfl⟩
  · intro n' r r' h h'
    cases hcur : lookupRepo s.repos n with
    | none =>
      simp only [markPhaseComplete, hcur] at h'
      rw [h] at h'
      have := Option.some.inj h'
      subst this
      exact ⟨flagsLE_refl _, rfl⟩
    | some current =>
      simp only [markPhaseComplete, hcur] at h'
      rw [lookup_after_setRepoState_of_lookup _ _ _ _ _ h] at h'
      have hr' := (Option.some.inj h').symm
      by_cases hn : n' = n
      · subst hn
        rw [h] at hcur
        have hcr : r = current := Option.some.inj hcur
        subst hcr
        rw [if_pos rfl] at hr'
        simp only [applyPatch, Option.getD_some] at hr'
        subst hr'
        exact ⟨flagsLE_setPhaseFlag _ _, rfl⟩
      · rw [if_neg hn] at hr'
        subst hr'
        exact ⟨flagsLE_refl _, rfl⟩
  · intro n' r r' h h'
    unfold updateLastSynced at h'
    rw [lookup_after_setRepoState_of_lookup _ _ _ _ _ h] at h'
    have hr' := (Option.some.inj h').symm
    by_cases hn : n' = n
    · rw [if_pos hn] at hr'
      subst hr'
      cases pa <;> exact ⟨flagsLE_refl _, rfl⟩
    · rw [if_neg hn] at hr'
      subst hr'
      exact ⟨flagsLE_refl _, rfl⟩
  · intro n' r r' h h'
    unfold updateGithubPushedAt at h'
    rw [lookup_after_setRepoState_of_lookup _ _ _ _ _ h] at h'
    have hr' := (Option.some.inj h').symm
    by_cases hn : n' = n
    · rw [if_pos hn] at hr'
      subst hr'
      exact ⟨flagsLE_refl _, rfl⟩
    · rw [if_neg hn] at hr'
      subst hr'
      exact ⟨flagsLE_refl _, rfl⟩
  · intro n' r r' h h'
    unfold addRepos at h'
    simp only at h'
    rw [lookup_addReposFoldFrame _ _ _ _ h] at h'
    have := Option.some.inj h'
    subst this
    exact ⟨flagsLE_refl _, rfl⟩
  · intro n' r r' h h'
    unfold addReposWithPushedAt at h'
    simp only at h'
    obtain ⟨r₂, h₂, hs₂⟩ := lookup_pushedAtFold reposL s.repos n' r h
    rw [h₂] at h'
    have := Option.some.inj h'
    subst this
    obtain ⟨_, _, _, _, _, _, _, hcnt, hph⟩ := hs₂
    rw [hph, hcnt]
    exact ⟨flagsLE_refl _, rfl⟩

/-- The record `markInProgress` produces for `wsRepoF` at time 9. -/
def c7After : RepoState :=
  { name := "f", status := .in_progress, lastAttempt := some 9, attemptCount := 2 }

theorem C7_monotone_witness :
    flagsLE wsRepoF.phases c7After.phases ∧
      c7After.attemptCount = wsRepoF.attemptCount + 1 := by
  have h := (C7_monotone_amended wsState "f" 9 "e" ErrorType.transient
    MigrationPhase.apiMigration none 0 [] []).1 "f" wsRepoF c7After (by decide) (by decide)
  exact ⟨h.1, h.2.1 rfl⟩

/-- Unfolding of `migrateRepo` over the phase flags stored at entry:
`markInProgress` patches neither phase flag, so the flags the run branches
on are those of the record stored when the run began. -/
theorem migrateRepo_unfold (repoName : String) (env : MigrationEnv) (now : Int)
    (s0 : MigrationState) (r : RepoState)
    (h : lookupRepo s0.repos repoName = some r) :
    migrateRepo repoName env now s0 =
      (if r.phases.apiMigration then
        migrateRepoFinish repoName env now r.phases.branchSync true []
          (markInProgress repoName now s0)
      else if env.repoExistsResult then
        migrateRepoFinish repoName env now r.phases.branchSync true [.repoExistsCheck]
          (markPhaseComplete repoName .apiMigration (markInProgress repoName now s0))
      else
        match env.apiMigrateResult with
        | none =>
          migrateRepoFinish repoName env now r.phases.branchSync true
            [.repoExistsCheck, .apiMigrateCall]
            (markPhaseComplete repoName .apiMigration (markInProgress repoName now s0))
        | some msg =>
          if strContains msg "already exists" || strContains msg "409" then
            migrateRepoFinish repoName env now r.phases.branchSync true
              [.repoExistsCheck, .apiMigrateCall]
              (markPhaseComplete repoName .apiMigration (markInProgress repoName now s0))
          else
            { result := { repoName := repoName, success := false, phases := ⟨false, false⟩
                          error := some msg, errorType := some (classifyError msg) }
              state := markFailed repoName msg (classifyError msg)
                (markInProgress repoName now s0)
              calls := [.repoExistsCheck, .apiMigrateCall] }) := by
  have hs1 : lookupRepo (markInProgress repoName now s0).repos repoName =
      some (applyPatch r
        { status := some .in_progress
          lastAttempt := some (some now)
          attemptCount :=
            some ((((lookupRepo s0.repos repoName).map (fun r => r.attemptCount)).getD 0) + 1) }) := by
    unfold markInProgress
    rw [lookup_after_setRepoState_of_lookup _ _ _ _ _ h]
    simp
  unfold migrateRepo
  simp only [hs1, Option.map_some', Option.getD_some]
  simp [applyPatch]

/-- C1: a phase whose stored flag is already true at entry is skipped
without invoking its collaborator, is reported as succeeded, and the run
continues to the next step: in particular a resume with phase 1 done and
phase 2 pending invokes only the branch syncer. -/
theorem C1_resume_skips (repoName : String) (env : MigrationEnv) (now : Int)
    (s0 : MigrationState) (r : RepoState)
    (h : lookupRepo s0.repos repoName = some r) :
    (r.phases.apiMigration = true →
      CollabCall.repoExistsCheck ∉ (migrateRepo repoName env now s0).calls ∧
      CollabCall.apiMigrateCall ∉ (migrateRepo repoName env now s0).calls ∧
      (migrateRepo repoName env now s0).result.phases.apiMigration = true ∧
      (r.phases.branchSync = false →
        CollabCall.syncBranchesCall ∈ (migrateRepo repoName env now s0).calls)) ∧
    (r.phases.branchSync = true →
      CollabCall.syncBranchesCall ∉ (migrateRepo repoName env now s0).calls ∧
      ((migrateRepo repoName env now s0).result.phases.apiMigration = true →
        (migrateRepo repoName env now s0).result.success = true ∧
        (migrateRepo repoName env now s0).result.phases.branchSync = true)) := by
  constructor
  · intro hapi
    rw [migrateRepo_unfold repoName env now s0 r h]
    simp only [hapi, if_true]
    cases hsf : r.phases.branchSync <;> cases hsr : env.syncResult <;>
      simp [migrateRepoFinish, hsr]
  · intro hsync
    rw [migrateRepo_unfold repoName env now s0 r h]
    rw [hsync]
    by_cases hae : r.phases.apiMigration = true
    · simp [hae, migrateRepoFinish]
    · have hae' : r.phases.apiMigration = false := by simpa using hae
      by_cases her : env.repoExistsResult = true
      · simp [hae', her, migrateRepoFinish]
      · have her' : env.repoExistsResult = false := by simpa using her
        cases ham : env.apiMigrateResult with
        | none => simp [hae', her', ham, migrateRepoFinish]
        | some msg =>
          by_cases hsc : (strContains msg "already exists" || strContains msg "409") = true
          · simp [hae', her', ham, hsc, migrateRepoFinish]
          · have hsc' : (strContains msg "already exists" || strContains msg "409") = false := by
              simpa using hsc
            simp [hae', her', ham, hsc']

/-- Repo resuming with phase 1 done and phase 2 pending. -/
def c1Repo : RepoState :=
  { name := "g", status := .failed, errorType := some .transient, attemptCount := 1
    phases := ⟨true, false⟩ }

/-- Snapshot holding `c1Repo`. -/
def c1State : MigrationState :=
  { sourceOrg := "s", targetOrg := "t", repos := [("g", c1Repo)] }

/-- Collaborator oracles where every remote call would succeed. -/
def c1Env : MigrationEnv :=
  { repoExistsResult := false, apiMigrateResult := none, syncResult := none }

theorem C1_resume_witness :
    CollabCall.repoExistsCheck ∉ (migrateRepo "g" c1Env 5 c1State).calls ∧
      CollabCall.apiMigrateCall ∉ (migrateRepo "g" c1Env 5 c1State).calls ∧
      CollabCall.syncBranchesCall ∈ (migrateRepo "g" c1Env 5 c1State).calls := by
  have h := (C1_resume_skips "g" c1Env 5 c1State c1Repo (by decide)).1 (by decide)
  exact ⟨h.1, h.2.1, h.2.2.2 (by decide)⟩

theorem lookup_markInProgress_self (n : String) (now : Int) (s : MigrationState) :
    lookupRepo (markInProgress n now s).repos n =
      some (applyPatch ((lookupRepo s.repos n).getD (defaultRepoState n))
        { status := some .in_progress
          lastAttempt := some (some now)
          attemptCount :=
            some ((((lookupRepo s.repos n).map (fun r => r.attemptCount)).getD 0) + 1) }) := by
  unfold markInProgress
  rw [lookup_setRepoState]
  simp

theorem lookup_markPhaseComplete_self (n : String) (ph : MigrationPhase)
    (s : MigrationState) (cur : RepoState) (h : lookupRepo s.repos n = some cur) :
    lookupRepo (markPhaseComplete n ph s).repos n =
      some (applyPatch cur { phases := some (setPhaseFlag cur.phases ph) }) := by
  unfold markPhaseComplete
  rw [h]
  rw [lookup_after_setRepoState_of_lookup _ _ _ _ _ h]
  simp

theorem storedApiFlag_markCompleted (n : String) (now : Int) (s : MigrationState) :
    storedApiFlag (markCompleted n now s) n = true := by
  unfold storedApiFlag markCompleted
  rw [lookup_setRepoState]
  simp [applyPatch]

theorem storedApiFlag_markFailed (n : String) (e : String) (et : ErrorType)
    (s : MigrationState) :
    storedApiFlag (markFailed n e et s) n = storedApiFlag s n := by
  unfold storedApiFlag markFailed
  rw [lookup_setRepoState]
  simp only [if_pos rfl]
  cases h : lookupRepo s.repos n <;> simp [h, applyPatch, defaultRepoState]

/-- `migrateRepo` unfolded over the stored entry flags, with no assumption
that a record exists (an absent record behaves as all-false flags). -/
theorem migrateRepo_run_eq (repoName : String) (env : MigrationEnv) (now : Int)
    (s0 : MigrationState) :
    migrateRepo repoName env now s0 =
      (if storedApiFlag s0 repoName then
        migrateRepoFinish repoName env now (storedSyncFlag s0 repoName) true []
          (markInProgress repoName now s0)
      else if env.repoExistsResult then
        migrateRepoFinish repoName env now (storedSyncFlag s0 repoName) true
          [.repoExistsCheck]
          (markPhaseComplete repoName .apiMigration (markInProgress repoName now s0))
      else
        match env.apiMigrateResult with
        | none =>
          migrateRepoFinish repoName env now (storedSyncFlag s0 repoName) true
            [.repoExistsCheck, .apiMigrateCall]
            (markPhaseComplete repoName .apiMigration (markInProgress repoName now s0))
        | some msg =>
          if strContains msg "already exists" || strContains msg "409" then
            migrateRepoFinish repoName env now (storedSyncFlag s0 repoName) true
              [.repoExistsCheck, .apiMigrateCall]
              (markPhaseComplete repoName .apiMigration (markInProgress repoName now s0))
          else
            { result := { repoName := repoName, success := false, phases := ⟨false, false⟩
                          error := some msg, errorType := some (classifyError msg) }
              state := markFailed repoName msg (classifyError msg)
                (markInProgress repoName now s0)
              calls := [.repoExistsCheck, .apiMigrateCall] }) := by
  unfold migrateRepo
  simp only [lookup_markInProgress_self, Option.map_some', Option.getD_some]
  unfold storedApiFlag storedSyncFlag
  cases hl : lookupRepo s0.repos repoName <;> simp [hl, applyPatch, defaultRepoState]

theorem finish_state_apiFlag (rn : String) (env : MigrationEnv) (now : Int) (sf : Bool)
    (cs : List CollabCall) (s : MigrationState) (hs : storedApiFlag s rn = true) :
    storedApiFlag (migrateRepoFinish rn env now sf true cs s).state rn = true := by
  unfold migrateRepoFinish
  cases sf
  · cases hr : env.syncResult <;>
      simp [hr, storedApiFlag_markCompleted, storedApiFlag_markFailed, hs]
  · simp [storedApiFlag_markCompleted]

theorem finish_result_apiFlag (rn : String) (env : MigrationEnv) (now : Int) (sf : Bool)
    (cs : List CollabCall) (s : MigrationState) :
    (migrateRepoFinish rn env now sf true cs s).result.phases.apiMigration = true := by
  unfold migrateRepoFinish
  cases sf <;> cases hr : env.syncResult <;> simp [hr]

theorem finish_calls_noSkip (rn : String) (env : MigrationEnv) (now : Int)
    (cs : List CollabCall) (s : MigrationState) :
    (migrateRepoFinish rn env now false true cs s).calls =
      cs ++ [CollabCall.syncBranchesCall] := by
  unfold migrateRepoFinish
  cases hr : env.syncResult <;> simp [hr]

/-- C4: a phase-1 migrate failure whose message contains "already exists"
or "409" is folded into phase-1 success (flag recorded, result reports the
phase done) and the run proceeds to phase 2; any other phase-1 failure
records FAILED with the classified error type and never reaches the branch
syncer. -/
theorem C4_phase1_failure (repoName : String) (env : MigrationEnv) (now : Int)
    (s0 : MigrationState) (msg : String)
    (hApi : storedApiFlag s0 repoName = false)
    (hExists : env.repoExistsResult = false)
    (hMig : env.apiMigrateResult = some msg) :
    ((strContains msg "already exists" || strContains msg "409") = true →
      storedApiFlag (migrateRepo repoName env now s0).state repoName = true ∧
      (migrateRepo repoName env now s0).result.phases.apiMigration = true ∧
      (storedSyncFlag s0 repoName = false →
        CollabCall.syncBranchesCall ∈ (migrateRepo repoName env now s0).calls)) ∧
    ((strContains msg "already exists" || strContains msg "409") = false →
      ∃ r', lookupRepo (migrateRepo repoName env now s0).state.repos repoName = some r' ∧
        r'.status = RepoStatus.failed ∧ r'.error = some msg ∧
        r'.errorType = some (classifyError msg) ∧
        CollabCall.syncBranchesCall ∉ (migrateRepo repoName env now s0).calls ∧
        (migrateRepo repoName env now s0).result.success = false) := by
  rw [migrateRepo_run_eq]
  simp only [hApi, Bool.false_eq_true, if_false, hExists, hMig]
  constructor
  · intro hsc
    simp only [hsc, if_true]
    obtain ⟨cur1, hcur1⟩ : ∃ c,
        lookupRepo (markInProgress repoName now s0).repos repoName = some c :=
      ⟨_, lookup_markInProgress_self repoName now s0⟩
    have hs2flag : storedApiFlag
        (markPhaseComplete repoName .apiMigration (markInProgress repoName now s0))
        repoName = true := by
      unfold storedApiFlag
      rw [lookup_markPhaseComplete_self _ _ _ _ hcur1]
      simp [applyPatch, setPhaseFlag]
    refine ⟨finish_state_apiFlag _ _ _ _ _ _ hs2flag,
      finish_result_apiFlag _ _ _ _ _ _, ?_⟩
    intro hsf
    rw [hsf, finish_calls_noSkip]
    simp
  · intro hsc
    simp only [hsc, Bool.false_eq_true, if_false]
    obtain ⟨cur1, hcur1⟩ : ∃ c,
        lookupRepo (markInProgress repoName now s0).repos repoName = some c :=
      ⟨_, lookup_markInProgress_self repoName now s0⟩
    have hlf : lookupRepo
        (markFailed repoName msg (classifyError msg)
          (markInProgress repoName now s0)).repos repoName =
        some (applyPatch cur1
          { status := some .failed, error := some (some msg)
            errorType := some (some (classifyError msg)) }) := by
      unfold markFailed
      rw [lookup_after_setRepoState_of_lookup _ _ _ _ _ hcur1]
      simp
    refine ⟨_, hlf, ?_, ?_, ?_, ?_, ?_⟩
    · simp [applyPatch]
    · simp [applyPatch]
    · simp [applyPatch]
    · simp
    · trivial

/-- Oracles for a run whose migrate call fails with a 409 conflict. -/
def c4Env : MigrationEnv :=
  { repoExistsResult := false, apiMigrateResult := some "409 Conflict", syncResult := none }

/-- Snapshot with a fresh pending repo `h`. -/
def c4State : MigrationState :=
  { sourceOrg := "s", targetOrg := "t"
    repos := [("h", { name := "h", status := .pending })] }

theorem C4_phase1_witness :
    (migrateRepo "h" c4Env 3 c4State).result.phases.apiMigration = true ∧
      CollabCall.syncBranchesCall ∈ (migrateRepo "h" c4Env 3 c4State).calls := by
  have h := (C4_phase1_failure "h" c4Env 3 c4State "409 Conflict"
    (by decide) (by decide) (by decide)).1 (by decide)
  exact ⟨h.2.1, h.2.2 (by decide)⟩

theorem mergeBatchState_cons (s : MigrationState) (q : String × RepoState)
    (rest : List (String × RepoState)) :
    mergeBatchState s (q :: rest) = mergeBatchState (mergeStep s q) rest := rfl

theorem mergeBatch_frame : ∀ (batch : List (String × RepoState)) (s : MigrationState)
    (k : String), k ∉ batch.map Prod.fst →
    lookupRepo (mergeBatchState s batch).repos k = lookupRepo s.repos k := by
  intro batch
  induction batch with
  | nil => intro s k _; rfl
  | cons q rest ih =>
    intro s k hk
    simp only [List.map_cons, List.mem_cons, not_or] at hk
    rw [mergeBatchState_cons, ih _ k hk.2]
    unfold mergeStep
    by_cases hw : mergeWins (lookupRepo s.repos q.1) q.2 = true
    · rw [if_pos hw, lookup_setRepoState, if_neg hk.1]
    · rw [if_neg hw]

/-- C3 (amended): for each entry of a batch file (no duplicate keys within
the batch), the merge patches the canonical record with the incoming
record's present fields - absent optional fields of the incoming record
retain their canonical values - iff the canonical record is missing, the
incoming record is completed, or its `lastAttempt` is present and beats the
canonical one; otherwise the canonical record is kept unchanged. -/
theorem C3_merge_amended : ∀ (batch : List (String × RepoState)) (s : MigrationState)
    (k : String) (inc : RepoState), (batch.map Prod.fst).Nodup → (k, inc) ∈ batch →
    lookupRepo (mergeBatchState s batch).repos k =
      (if mergeWins (lookupRepo s.repos k) inc then
        some (applyPatch ((lookupRepo s.repos k).getD (defaultRepoState k)) (toPatch inc))
      else lookupRepo s.repos k) := by
  intro batch
  induction batch with
  | nil => intro s k inc _ hmem; simp at hmem
  | cons q rest ih =>
    intro s k inc hnd hmem
    simp only [List.map_cons, List.nodup_cons] at hnd
    rcases List.mem_cons.mp hmem with heq | htl
    · have hq1 : q.1 = k := by rw [← heq]
    -- head case: the entry is processed first, the tail never touches k
      have hknr : k ∉ rest.map Prod.fst := by
        rw [← hq1]
        exact hnd.1
      rw [mergeBatchState_cons, mergeBatch_frame rest _ k hknr]
      unfold mergeStep
      rw [← heq]
      by_cases hw : mergeWins (lookupRepo s.repos k) inc = true
      · rw [if_pos hw, if_pos hw, lookup_setRepoState, if_pos rfl]
      · rw [if_neg hw, if_neg hw]
    · have hqk : q.1 ≠ k := by
        intro hc
        exact hnd.1 (hc ▸ (List.mem_map.mpr ⟨(k, inc), htl, rfl⟩))
      have hstep : lookupRepo (mergeStep s q).repos k = lookupRepo s.repos k := by
        unfold mergeStep
        by_cases hw : mergeWins (lookupRepo s.repos q.1) q.2 = true
        · rw [if_pos hw, lookup_setRepoState, if_neg (fun hc => hqk hc.symm)]
        · rw [if_neg hw]
      rw [mergeBatchState_cons, ih _ k inc hnd.2 htl, hstep]

/-- Canonical record: failed with a recorded error. -/
def c3CanonicalRepo : RepoState :=
  { name := "a", status := .failed, lastAttempt := some 2, error := some "boom"
    errorType := some .permanent, attemptCount := 3, phases := ⟨true, true⟩ }

/-- Canonical snapshot holding `c3CanonicalRepo`. -/
def c3Canonical : MigrationState :=
  { sourceOrg := "s", targetOrg := "t", repos := [("a", c3CanonicalRepo)] }

/-- Incoming batch record: completed, with no `error`/`errorType` keys. -/
def c3Incoming : RepoState :=
  { name := "a", status := .completed, lastAttempt := some 1, completedAt := some 5
    lastSyncedAt := some 5, attemptCount := 3, phases := ⟨true, true⟩ }

theorem C3_merge_counterexample :
    mergeWins (lookupRepo c3Canonical.repos "a") c3Incoming = true ∧
      lookupRepo (mergeBatchState c3Canonical [("a", c3Incoming)]).repos "a" ≠
        some c3Incoming ∧
      (lookupRepo (mergeBatchState c3Canonical [("a", c3Incoming)]).repos "a").map
        (fun r => r.error) = some (some "boom") ∧
      c3Incoming.error = none := by
  refine ⟨by decide, by decide, by decide, by decide⟩

theorem C3_merge_witness :
    lookupRepo (mergeBatchState c3Canonical [("a", c3Incoming)]).repos "a" =
      (if mergeWins (lookupRepo c3Canonical.repos "a") c3Incoming then
        some (applyPatch ((lookupRepo c3Canonical.repos "a").getD (defaultRepoState "a"))
          (toPatch c3Incoming))
      else lookupRepo c3Canonical.repos "a") :=
  C3_merge_amended [("a", c3Incoming)] c3Canonical "a" c3Incoming (by decide) (by decide)

theorem addRepoWithPushedAt_wf (acc : List (String × RepoState)) (nm : String)
    (pa : Option Int) (hWF : ∀ q ∈ acc, (q : String × RepoState).2.name = q.1) :
    ∀ q ∈ addRepoWithPushedAt acc nm pa, (q : String × RepoState).2.name = q.1 := by
  unfold addRepoWithPushedAt
  by_cases ha : acc.any (fun q => q.1 == nm)
  · rw [if_pos ha]
    cases pa with
    | none => exact hWF
    | some p =>
      intro q hq
      obtain ⟨q₀, hq₀, hmap⟩ := List.mem_map.mp hq
      by_cases hqn : q₀.1 = nm
      · rw [← hmap]
        simpa [hqn] using hWF q₀ hq₀
      · rw [← hmap]
        simpa [hqn] using hWF q₀ hq₀
  · rw [if_neg ha]
    intro q hq
    rcases List.mem_append.mp hq with hmem | hmem
    · exact hWF q hmem
    · simp only [List.mem_singleton] at hmem
      rw [hmem]
      simp [defaultRepoState]

theorem addRepoWithPushedAt_keys (acc : List (String × RepoState)) (nm : String)
    (pa : Option Int) :
    ((addRepoWithPushedAt acc nm pa).map Prod.fst = acc.map Prod.fst) ∨
      ((addRepoWithPushedAt acc nm pa).map Prod.fst = acc.map Prod.fst ++ [nm] ∧
        nm ∉ acc.map Prod.fst) := by
  unfold addRepoWithPushedAt
  by_cases ha : acc.any (fun q => q.1 == nm)
  · rw [if_pos ha]
    cases pa with
    | none => exact Or.inl rfl
    | some p =>
      refine Or.inl ?_
      rw [List.map_map]
      apply List.map_congr_left
      intro q _
      by_cases hqn : q.1 = nm <;> simp [hqn]
  · rw [if_neg ha]
    refine Or.inr ⟨by simp, ?_⟩
    intro hmem
    obtain ⟨q, hq, hfst⟩ := List.mem_map.mp hmem
    exact absurd (List.any_eq_true.mpr ⟨q, hq, by simp [hfst]⟩) ha

theorem addRepoWithPushedAt_nodup (acc : List (String × RepoState)) (nm : String)
    (pa : Option Int) (hnd : (acc.map Prod.fst).Nodup) :
    ((addRepoWithPushedAt acc nm pa).map Prod.fst).Nodup := by
  rcases addRepoWithPushedAt_keys acc nm pa with h | ⟨h, hnotin⟩
  · rw [h]
    exact hnd
  · rw [h]
    simp [List.nodup_append, hnd, hnotin]

theorem pushedAtFold_wf (reposL : List (String × Option Int))
    (acc : List (String × RepoState))
    (hWF : ∀ q ∈ acc, (q : String × RepoState).2.name = q.1) :
    ∀ q ∈ reposL.foldl (fun acc q => addRepoWithPushedAt acc q.1 q.2) acc,
      (q : String × RepoState).2.name = q.1 := by
  induction reposL generalizing acc with
  | nil => exact hWF
  | cons q rest ih =>
    simp only [List.foldl_cons]
    exact ih _ (addRepoWithPushedAt_wf acc q.1 q.2 hWF)

theorem pushedAtFold_nodup (reposL : List (String × Option Int))
    (acc : List (String × RepoState)) (hnd : (acc.map Prod.fst).Nodup) :
    ((reposL.foldl (fun acc q => addRepoWithPushedAt acc q.1 q.2) acc).map
      Prod.fst).Nodup := by
  induction reposL generalizing acc with
  | nil => exact hnd
  | cons q rest ih =>
    simp only [List.foldl_cons]
    exact ih _ (addRepoWithPushedAt_nodup acc q.1 q.2 hnd)

theorem lookup_markSkipped (nm reason : String) (s : MigrationState) (m : String) :
    lookupRepo (markSkipped nm reason s).repos m =
      if m = nm then
        some (applyPatch ((lookupRepo s.repos nm).getD (defaultRepoState nm))
          { status := some .skipped, error := some (some reason), errorType := some none })
      else lookupRepo s.repos m := by
  unfold markSkipped
  rw [lookup_setRepoState]

/-- Effect of the inactive-pending skip loop on one stored record: every
field except status/error/errorType is untouched, and those three change
only by marking a pending record skipped with the given reason. -/
theorem skipLoop_spec (a : List String) (reason : String) :
    ∀ (names : List String) (s : MigrationState) (n : String) (r : RepoState),
      names.Nodup →
      (∀ nm ∈ names, ∀ rr, lookupRepo s.repos nm = some rr →
        rr.status = RepoStatus.pending) →
      lookupRepo s.repos n = some r →
      ∃ r', lookupRepo (skipLoop a reason names s).repos n = some r' ∧
        r'.name = r.name ∧ r'.phases = r.phases ∧ r'.attemptCount = r.attemptCount ∧
        r'.lastAttempt = r.lastAttempt ∧ r'.completedAt = r.completedAt ∧
        r'.lastSyncedAt = r.lastSyncedAt ∧ r'.githubPushedAt = r.githubPushedAt ∧
        ((r'.status = r.status ∧ r'.error = r.error ∧ r'.errorType = r.errorType) ∨
          (r.status = RepoStatus.pending ∧ r'.status = RepoStatus.skipped ∧
            r'.error = some reason ∧ r'.errorType = none)) := by
  intro names
  induction names with
  | nil =>
    intro s n r _ _ h
    exact ⟨r, h, rfl, rfl, rfl, rfl, rfl, rfl, rfl, Or.inl ⟨rfl, rfl, rfl⟩⟩
  | cons nm rest ih =>
    intro s n r hnd hp h
    simp only [List.nodup_cons] at hnd
    have hcons : skipLoop a reason (nm :: rest) s =
        skipLoop a reason rest
          (if a.contains nm then s else markSkipped nm reason s) := rfl
    rw [hcons]
    by_cases hact : a.contains nm = true
    · rw [if_pos hact]
      exact ih s n r hnd.2
        (fun nm' hm' rr hrr => hp nm' (List.mem_cons_of_mem _ hm') rr hrr) h
    · rw [if_neg hact]
      have hp' : ∀ nm' ∈ rest, ∀ rr,
          lookupRepo (markSkipped nm reason s).repos nm' = some rr →
          rr.status = RepoStatus.pending := by
        intro nm' hm' rr hrr
        have hne : ¬ nm' = nm := fun hc => hnd.1 (hc ▸ hm')
        rw [lookup_markSkipped, if_neg hne] at hrr
        exact hp nm' (List.mem_cons_of_mem _ hm') rr hrr
      by_cases hn : n = nm
      · subst hn
        have hpend : r.status = RepoStatus.pending := hp n (List.mem_cons_self _ _) r h
        have hs' : lookupRepo (markSkipped n reason s).repos n =
            some (applyPatch r
              { status := some .skipped, error := some (some reason)
                errorType := some none }) := by
          rw [lookup_markSkipped, if_pos rfl, h]
          simp
        obtain ⟨r', hr', f1, f2, f3, f4, f5, f6, f7, hcase⟩ :=
          ih (markSkipped n reason s) n _ hnd.2 hp' hs'
        refine ⟨r', hr', ?_, ?_, ?_, ?_, ?_, ?_, ?_, ?_⟩
        · simpa [applyPatch] using f1
        · simpa [applyPatch] using f2
        · simpa [applyPatch] using f3
        · simpa [applyPatch] using f4
        · simpa [applyPatch] using f5
        · simpa [applyPatch] using f6
        · simpa [applyPatch] using f7
        · rcases hcase with ⟨hs, he, het⟩ | ⟨hs, _, _, _⟩
          · refine Or.inr ⟨hpend, ?_, ?_, ?_⟩
            · simpa [applyPatch] using hs
            · simpa [applyPatch] using he
            · simpa [applyPatch] using het
          · simp [applyPatch] at hs
      · have hs' : lookupRepo (markSkipped nm reason s).repos n = some r := by
          rw [lookup_markSkipped, if_neg hn]
          exact h
        exact ih (markSkipped nm reason s) n r hnd.2 hp' hs'

theorem pending_names_spec (s : MigrationState)
    (hWF : ∀ q ∈ s.repos, (q : String × RepoState).2.name = q.1)
    (hNodup : (s.repos.map Prod.fst).Nodup) :
    (getPendingRepos s).Nodup ∧
      ∀ nm ∈ getPendingRepos s, ∀ rr, lookupRepo s.repos nm = some rr →
        rr.status = RepoStatus.pending := by
  constructor
  · unfold getPendingRepos
    rw [filterMapSnd]
    have hmapeq : (s.repos.filter (fun q => q.2.status == RepoStatus.pending)).map
          (fun q => q.2.name) =
        (s.repos.filter (fun q => q.2.status == RepoStatus.pending)).map Prod.fst := by
      apply List.map_congr_left
      intro q hq
      exact hWF q (List.mem_of_mem_filter hq)
    rw [hmapeq]
    exact hNodup.sublist ((List.filter_sublist s.repos).map Prod.fst)
  · intro nm hnm rr hrr
    unfold getPendingRepos at hnm
    rw [filterMapSnd] at hnm
    obtain ⟨q, hq, hname⟩ := List.mem_map.mp hnm
    obtain ⟨hql, hpred⟩ := List.mem_filter.mp hq
    have hq1 : q.1 = nm := by rw [← hWF q hql, hname]
    have hlq : lookupRepo s.repos nm = some q.2 := by
      rw [← hq1]
      exact lookup_of_mem_nodup _ _ _ hNodup (by rw [Prod.mk.eta]; exact hql)
    rw [hlq] at hrr
    have hq2 := Option.some.inj hrr
    rw [← hq2]
    simpa using hpred

theorem discoverRepos_snd (ghRepos : List (String × Option Int)) (cfg : DiscoveryConfig)
    (days : Nat) (now : Int) (s0 : MigrationState) :
    (discoverRepos ghRepos cfg days now s0).2 =
      (if days > 0 then
        skipLoop ((discActive (discFiltered ghRepos cfg) days now).map (fun q => q.1))
          (skipReason days)
          (getPendingRepos (addReposWithPushedAt (discFiltered ghRepos cfg) now s0))
          (addReposWithPushedAt (discFiltered ghRepos cfg) now s0)
      else addReposWithPushedAt (discFiltered ghRepos cfg) now s0) := by
  unfold discoverRepos
  by_cases hd : days > 0 <;> simp [hd]

/-- C9 (amended): for a repo already present in the snapshot, a discovery
run leaves `phases`, `attemptCount`, `lastAttempt`, `completedAt` and
`lastSyncedAt` unchanged; besides refreshing `githubPushedAt`, the only
other mutation discovery can make is marking a pending repo skipped (with
the inactivity reason, clearing `errorType`) under an inactivity cutoff. -/
theorem C9_discovery_amended (ghRepos : List (String × Option Int))
    (cfg : DiscoveryConfig) (days : Nat) (now : Int) (s0 : MigrationState)
    (n : String) (r : RepoState)
    (hWF : ∀ q ∈ s0.repos, (q : String × RepoState).2.name = q.1)
    (hNodup : (s0.repos.map Prod.fst).Nodup)
    (h : lookupRepo s0.repos n = some r) :
    ∃ r', lookupRepo (discoverRepos ghRepos cfg days now s0).2.repos n = some r' ∧
      r'.name = r.name ∧ r'.phases = r.phases ∧ r'.attemptCount = r.attemptCount ∧
      r'.lastAttempt = r.lastAttempt ∧ r'.completedAt = r.completedAt ∧
      r'.lastSyncedAt = r.lastSyncedAt ∧
      ((r'.status = r.status ∧ r'.error = r.error ∧ r'.errorType = r.errorType) ∨
        (r.status = RepoStatus.pending ∧ r'.status = RepoStatus.skipped ∧
          r'.error = some (skipReason days) ∧ r'.errorType = none)) := by
  rw [discoverRepos_snd]
  obtain ⟨r1, h1, hse⟩ :
      ∃ r1, lookupRepo (addReposWithPushedAt (discFiltered ghRepos cfg) now s0).repos n =
        some r1 ∧ sameExceptPushed r r1 :=
    lookup_pushedAtFold (discFiltered ghRepos cfg) s0.repos n r h
  obtain ⟨e1, e2, e3, e4, e5, e6, e7, e8, e9⟩ := hse
  have hWF1 : ∀ q ∈ (addReposWithPushedAt (discFiltered ghRepos cfg) now s0).repos,
      (q : String × RepoState).2.name = q.1 :=
    pushedAtFold_wf (discFiltered ghRepos cfg) s0.repos hWF
  have hNodup1 : ((addReposWithPushedAt (discFiltered ghRepos cfg) now s0).repos.map
      Prod.fst).Nodup :=
    pushedAtFold_nodup (discFiltered ghRepos cfg) s0.repos hNodup
  obtain ⟨hndp, hp⟩ := pending_names_spec _ hWF1 hNodup1
  by_cases hd : days > 0
  · rw [if_pos hd]
    obtain ⟨r', hr', f1, f2, f3, f4, f5, f6, _, hcase⟩ :=
      skipLoop_spec ((discActive (discFiltered ghRepos cfg) days now).map (fun q => q.1))
        (skipReason days) _ _ n r1 hndp hp h1
    refine ⟨r', hr', f1.trans e1, f2.trans e9, f3.trans e8, f4.trans e3, f5.trans e4,
      f6.trans e5, ?_⟩
    rcases hcase with ⟨hs, he, het⟩ | ⟨hs, hs', he, het⟩
    · exact Or.inl ⟨hs.trans e2, he.trans e6, het.trans e7⟩
    · exact Or.inr ⟨e2 ▸ hs, hs', he, het⟩
  · rw [if_neg hd]
    exact ⟨r1, h1, e1, e9, e8, e3, e4, e5, Or.inl ⟨e2, e6, e7⟩⟩

/-- A pending repo that discovery will find inactive. -/
def c9Repo : RepoState := { name := "a", status := .pending }

/-- Snapshot holding `c9Repo`. -/
def c9State : MigrationState :=
  { sourceOrg := "s", targetOrg := "t", repos := [("a", c9Repo)] }

/-- Discovery config with no include/exclude filters. -/
def c9Cfg : DiscoveryConfig := { includeOnlyRepos := [], excludeRepos := [] }

theorem C9_discovery_counterexample :
    (lookupRepo c9State.repos "a").map (fun r => r.status) = some RepoStatus.pending ∧
      (lookupRepo (discoverRepos [("a", some 0)] c9Cfg 1 (2 * msPerDay)
          c9State).2.repos "a").map (fun r => r.status) = some RepoStatus.skipped ∧
      (lookupRepo (discoverRepos [("a", some 0)] c9Cfg 1 (2 * msPerDay)
          c9State).2.repos "a").map (fun r => r.error) =
        some (some (skipReason 1)) := by
  refine ⟨by decide, by decide, by decide⟩

theorem C9_discovery_witness :
    ∃ r', lookupRepo (discoverRepos [("a", some 5)] c9Cfg 0 10 c9State).2.repos "a" =
      some r' ∧
      r'.name = c9Repo.name ∧ r'.phases = c9Repo.phases ∧
      r'.attemptCount = c9Repo.attemptCount ∧
      r'.lastAttempt = c9Repo.lastAttempt ∧ r'.completedAt = c9Repo.completedAt ∧
      r'.lastSyncedAt = c9Repo.lastSyncedAt ∧
      ((r'.status = c9Repo.status ∧ r'.error = c9Repo.error ∧
          r'.errorType = c9Repo.errorType) ∨
        (c9Repo.status = RepoStatus.pending ∧ r'.status = RepoStatus.skipped ∧
          r'.error = some (skipReason 0) ∧ r'.errorType = none)) :=
  C9_discovery_amended [("a", some 5)] c9Cfg 0 10 c9State "a" c9Repo
    (by decide) (by decide) (by decide)
